import Mathlib

/-
Shallow embedding of src/pygmtsar/pygmtsar/SBAS_geocode.py (class SBAS_geocode):
the forward geocoding matrix builder intf_ra2ll_matrix, the forward resampler
intf_ra2ll (inner function ra2ll and its dims check), the inverse matrix builder
intf_ll2ra_matrix (inner function calc_intf_ll2ra_matrix) and the inverse
resampler intf_ll2ra (inner function ll2ra and its dims check).

Coordinates and distances are embedded over the exact rationals; scipy's
cKDTree nearest-neighbour query with a distance upper bound is embedded as an
argmin over squared distances, with the comparison against the (irrational)
bound sqrt s + eps decided exactly over the rationals (leSqrtTol).  numpy
fancy indexing keeps Python semantics: negative indices wrap from the end,
out-of-bounds indices are an IndexError, modelled with Except.
-/

set_option allowUnsafeReducibility true in
attribute [semireducible] Rat.add Rat.sub Rat.mul Rat.inv

set_option maxRecDepth 8192

namespace GmtSAR

/-- Squared Euclidean distance between two (y, x) points of the plane. -/
def distSq (a b : ℚ × ℚ) : ℚ := (a.1 - b.1)^2 + (a.2 - b.2)^2

/-- Decides the comparison of a squared distance q against the squared distance
bound (Real.sqrt s + eps)^2, for nonnegative rationals s and eps: this is the
comparison cKDTree.query performs against distance_upper_bound when the bound
is sqrt s + eps (in SBAS_geocode, s = (dx/2)^2 + (dy/2)^2 and eps = 1e-2). -/
def leSqrtTol (q s eps : ℚ) : Bool :=
  decide (q - s - eps^2 ≤ 0) || decide ((q - s - eps^2)^2 ≤ 4 * eps^2 * s)

/-- First (lowest-index, from base index i) minimiser of the squared distance
to p among the listed source points, together with that minimal squared
distance; embeds cKDTree nearest-neighbour search, with ties broken
deterministically toward the lower index. -/
def argminDistSq (p : ℚ × ℚ) : List (ℚ × ℚ) → ℕ → Option (ℕ × ℚ)
  | [], _ => none
  | q :: rest, i =>
    match argminDistSq p rest (i+1) with
    | none => some (i, distSq p q)
    | some (j, d) => if distSq p q ≤ d then some (i, distSq p q) else some (j, d)

/-- scipy cKDTree.query with k = 1 and distance_upper_bound = sqrt s + eps:
the index of the nearest source point when its distance is within the bound,
none (scipy: infinite distance and index n) otherwise. -/
def treeQueryOne (srcs : List (ℚ × ℚ)) (p : ℚ × ℚ) (s eps : ℚ) : Option ℕ :=
  match argminDistSq p srcs 0 with
  | none => none
  | some (j, d) => if leSqrtTol d s eps then some j else none

/-- xr.broadcast of the y and x coordinate axes, flattened row-major: the
radar grid cell centres, cell (iy, ix) at flat index iy * xs.length + ix. -/
def broadcastYX (ys xs : List ℚ) : List (ℚ × ℚ) :=
  (ys.map (fun y => xs.map (fun x => (y, x)))).flatten

/-- Python / numpy integer array indexing: a negative index wraps from the end
of the list, anything out of the range [-n, n) is an IndexError. -/
def pyGet {α : Type} (l : List α) (i : Int) : Except String α :=
  if h : 0 ≤ i ∧ i < (l.length : Int) then
    .ok (l.get ⟨i.toNat, by omega⟩)
  else if h2 : -(l.length : Int) ≤ i ∧ i < 0 then
    .ok (l.get ⟨(i + l.length).toNat, by omega⟩)
  else
    .error "IndexError: index out of bounds"

/-- Monadic map over Except, returning the first error; embeds a numpy gather
that evaluates the whole fancy-indexing expression or raises. -/
def mapME {α β : Type} (f : α → Except String β) : List α → Except String (List β)
  | [] => .ok []
  | a :: rest =>
    match f a with
    | .error e => .error e
    | .ok b =>
      match mapME f rest with
      | .error e => .error e
      | .ok bs => .ok (b :: bs)

/-- A row of the trans.dat translation table generated by llt_grid2rat:
(r, a, topo, lon, lat) — range, azimuth, elevation, longitude, latitude. -/
structure TransRow where
  r : ℚ
  a : ℚ
  topo : ℚ
  lon : ℚ
  lat : ℚ
deriving DecidableEq

/-- The single-integer index mask of intf_ra2ll_matrix:
intf2trans = np.where(~np.isinf(d), inds, -1) — one entry per translation
table point, holding the flat index of the nearest radar grid cell centre
within the distance bound, or -1 when the query reported no neighbour. -/
def intf2trans (centers : List (ℚ × ℚ)) (transYXs : List (ℚ × ℚ)) (s eps : ℚ) : List Int :=
  transYXs.map (fun p =>
    match treeQueryOne centers p s eps with
    | some j => (j : Int)
    | none => -1)

/-- The value array built by intf_ra2ll_matrix before its assert:
flatten the interferogram grid cell centres, stack the translation table's
(azimuth, range) columns, query the KD-tree with distance bound
sqrt ((dx/2)^2 + (dy/2)^2) + 1e-2, then
np.where(trans_ra2ll >= 0, intf2trans[trans_ra2ll], -1) with numpy gather
semantics.  dy and dx are the first differences of the y and x axes, an
IndexError when an axis has fewer than two values. -/
def intf_ra2ll_values (ys xs : List ℚ) (trans : List TransRow)
    (trans_ra2ll : List Int) : Except String (List Int) :=
  match ys, xs with
  | y0 :: y1 :: _, x0 :: x1 :: _ =>
    let intf_yxs := broadcastYX ys xs
    let trans_yxs := trans.map (fun t => (t.a, t.r))
    let dy := y1 - y0
    let dx := x1 - x0
    let s := (dx/2)^2 + (dy/2)^2
    let inds := intf2trans intf_yxs trans_yxs s (1/100)
    match mapME (pyGet inds) trans_ra2ll with
    | .error e => .error e
    | .ok gathered =>
      .ok ((trans_ra2ll.zip gathered).map (fun p => if 0 ≤ p.1 then p.2 else -1))
  | _, _ => .error "IndexError: diff needs at least two coordinate values"

/-- Shallow embedding of SBAS_geocode.intf_ra2ll_matrix: build the value
array, then assert intf_grid.size > intf_ra2ll.max() — the interferogram grid
size ys.length * xs.length must be strictly greater than the largest matrix
entry (numpy's max of an empty array is an error of its own); on success the
built matrix is the result (the source then persists it). -/
def intf_ra2ll_matrix (ys xs : List ℚ) (trans : List TransRow)
    (trans_ra2ll : List Int) : Except String (List Int) :=
  match intf_ra2ll_values ys xs trans trans_ra2ll with
  | .error e => .error e
  | .ok values =>
    match values.max? with
    | none => .error "ValueError: zero-size array to reduction operation"
    | some m =>
      if ((ys.length * xs.length : ℕ) : Int) > m then
        .ok values
      else
        .error "AssertionError: transform matrix size is too small for interferograms largest index"

/-- The helper check of intf_ra2ll, `not 'y' in grids.dims and 'x' in grids.dims`:
by Python precedence this parses as (not ('y' in dims)) and ('x' in dims);
when it is true the function prints a notice and returns the input unchanged. -/
def intf_ra2ll_skips_geocoding (dims : List String) : Bool :=
  (!(dims.contains "y")) && (dims.contains "x")

/-- The inner function ra2ll of intf_ra2ll applied to one flattened layer:
matrix entries not below the layer size are first substituted with -1
(matrix_ra2ll_valid), the layer is gathered at the substituted indices with
numpy semantics, and the result keeps the gathered value where the ORIGINAL
matrix entry is nonnegative and is NaN (none) elsewhere. -/
def ra2ll (matrix_ra2ll : List Int) (grid : List ℚ) :
    Except String (List (Option ℚ)) :=
  let matrix_valid := matrix_ra2ll.map
    (fun v => if v < (grid.length : Int) then v else -1)
  match mapME (pyGet grid) matrix_valid with
  | .error e => .error e
  | .ok gathered =>
    .ok ((matrix_ra2ll.zip gathered).map
      (fun p => if 0 ≤ p.1 then some p.2 else none))

/-- The helper check of intf_ll2ra, `not 'lat' in grids.dims and 'lon' in grid.dims`:
when 'lat' is a dimension the first conjunct is False and the check
short-circuits (ok false, geocoding continues); when 'lat' is absent Python
evaluates the second conjunct on the name `grid`, which is not defined at that
point of the function, raising NameError. -/
def intf_ll2ra_check (dims : List String) : Except String Bool :=
  if !(dims.contains "lat") then
    .error "NameError: name grid is not defined"
  else
    .ok false

/-- The inner function ll2ra of intf_ll2ra applied to one flattened layer:
gather the layer at all matrix entries (uint32, hence nonnegative; an entry
at or past the layer size is an IndexError), then keep the gathered value
where the entry differs from np.uint32(-1) = 4294967295 and NaN elsewhere. -/
def ll2ra (matrix_ll2ra : List ℕ) (grid : List ℚ) :
    Except String (List (Option ℚ)) :=
  match mapME (fun v =>
    if h : v < grid.length then Except.ok (grid.get ⟨v, h⟩)
    else Except.error "IndexError: index out of bounds") matrix_ll2ra with
  | .error e => .error e
  | .ok gathered =>
    .ok ((matrix_ll2ra.zip gathered).map
      (fun p => if p.1 ≠ 4294967295 then some p.2 else none))

/-- A row of the trans_dat blocks extents table:
(block_row, block_col, y_min, y_max, x_min, x_max). -/
structure BlockExtent where
  iy : ℕ
  ix : ℕ
  ymin : ℚ
  ymax : ℚ
  xmin : ℚ
  xmax : ℚ
deriving DecidableEq

/-- The block selection of calc_intf_ll2ra_matrix:
ymask = (extents y_max >= ymin-1) & (extents y_min <= ymax+1),
xmask = (extents x_max >= xmin-1) & (extents x_min <= xmax+1),
blocks = extents[ymask & xmask]. -/
def selectBlocks (extents : List BlockExtent) (ymin ymax xmin xmax : ℚ) :
    List BlockExtent :=
  extents.filter (fun b =>
    (decide (ymin - 1 ≤ b.ymax) && decide (b.ymin ≤ ymax + 1)) &&
    (decide (xmin - 1 ≤ b.xmax) && decide (b.xmin ≤ xmax + 1)))

/-- The candidate gathering of calc_intf_ll2ra_matrix: concatenate the
flattened (azimuth, range, trans_idx label) triples of every selected
trans_dat block, in block order. -/
def gatherCandidates (extents : List BlockExtent)
    (blockData : ℕ → ℕ → List (ℚ × ℚ × ℕ)) (ymin ymax xmin xmax : ℚ) :
    List (ℚ × ℚ × ℕ) :=
  ((selectBlocks extents ymin ymax xmin xmax).map
    (fun b => blockData b.iy b.ix)).flatten

/-- The per-target assignment of calc_intf_ll2ra_matrix: query the KD-tree
built over the gathered (azimuth, range) pairs with NO distance bound and take
the label of the nearest candidate.  The 0 defaults are unreachable when the
candidate list is nonempty. -/
def nearestLabel (cands : List (ℚ × ℚ × ℕ)) (t : ℚ × ℚ) : ℕ :=
  match argminDistSq t (cands.map (fun c => (c.1, c.2.1))) 0 with
  | some (j, _) => ((cands[j]?).map (fun c => c.2.2)).getD 0
  | none => 0

/-- The candidate set gathered by calc_intf_ll2ra_matrix for a target block:
the bounds ymin, ymax, xmin, xmax of the block's azimuth and range values
(numpy min and max over the nonempty block), then the triples of the
extents-selected trans_dat blocks. -/
def candsOf (extents : List BlockExtent)
    (blockData : ℕ → ℕ → List (ℚ × ℚ × ℕ)) (targets : List (ℚ × ℚ)) :
    List (ℚ × ℚ × ℕ) :=
  match targets with
  | [] => []
  | t0 :: _ =>
    gatherCandidates extents blockData
      ((targets.map Prod.fst).foldl min t0.1)
      ((targets.map Prod.fst).foldl max t0.1)
      ((targets.map Prod.snd).foldl min t0.2)
      ((targets.map Prod.snd).foldl max t0.2)

/-- Shallow embedding of the inner function calc_intf_ll2ra_matrix of
intf_ll2ra_matrix: compute the bounds of the target block's azimuth and range
values (numpy min and max, an error on an empty block), select the trans_dat
blocks by the extents masks, gather their (azimuth, range, label) triples,
and assign every target cell the label of its nearest gathered point.  An
empty candidate set is an IndexError: indexing the empty concatenated label
array with the scipy miss index 0. -/
def calc_intf_ll2ra_matrix (extents : List BlockExtent)
    (blockData : ℕ → ℕ → List (ℚ × ℚ × ℕ)) (targets : List (ℚ × ℚ)) :
    Except String (List ℕ) :=
  match targets with
  | [] => .error "ValueError: zero-size array to reduction operation"
  | _ :: _ =>
    match candsOf extents blockData targets with
    | [] => .error "IndexError: index 0 is out of bounds for axis 0 with size 0"
    | c :: cs => .ok (targets.map (nearestLabel (c :: cs)))

/-! Concrete scenario data used by the claim theorems. -/

/-- The 4x4 coincident-grid scenario translation table: point j has
(range, azimuth) = (j mod 4, j div 4), exactly the centre of radar grid
cell j in the row-major flattening of the axes [0,1,2,3] x [0,1,2,3]. -/
def coincidentTrans : List TransRow :=
  (List.range 16).map (fun j => ⟨((j % 4 : ℕ) : ℚ), ((j / 4 : ℕ) : ℚ), 0, 0, 0⟩)

/-- The full-area radar-area-mask translation matrix of the coincident-grid
scenario: all 16 geographic cells valid, cell j referring to translation
table point j. -/
def fullAreaMask : List Int := (List.range 16).map (fun j => (j : Int))

/-- Spec formulation of block candidacy (§4.3 step 2): the block's bounding
box, a product of closed intervals, intersects — as a set of points of the
plane — the target block's bounds expanded by one unit on each side.  This
definition follows the spec's words; the code's masks are in selectBlocks,
and the refinement theorem compares the two. -/
def boxIntersectsExpanded (b : BlockExtent) (ymin ymax xmin xmax : ℚ) : Prop :=
  (∃ y, b.ymin ≤ y ∧ y ≤ b.ymax ∧ ymin - 1 ≤ y ∧ y ≤ ymax + 1) ∧
  (∃ x, b.xmin ≤ x ∧ x ≤ b.xmax ∧ xmin - 1 ≤ x ∧ x ≤ xmax + 1)

/-- Witness scenario for the inverse builder: block (0, 0) covers the 4x4
radar grid area, block (1, 0) is far away at [100, 101] x [100, 101] and must
be pruned. -/
def wExtents : List BlockExtent :=
  [⟨0, 0, 0, 3, 0, 3⟩, ⟨1, 0, 100, 101, 100, 101⟩]

/-- Witness scenario for the inverse builder: block (0, 0) holds 16
translation points coincident with the radar cell centres, labels 0..15. -/
def wBlockData : ℕ → ℕ → List (ℚ × ℚ × ℕ) := fun iy ix =>
  if iy = 0 ∧ ix = 0 then
    (List.range 16).map (fun j => (((j / 4 : ℕ) : ℚ), ((j % 4 : ℕ) : ℚ), j))
  else []

/-- The witness target block without its head cell (0, 0): the remaining 15
cell centres of the 4x4 radar grid, row-major. -/
def wRest : List (ℚ × ℚ) :=
  [(0, 1), (0, 2), (0, 3), (1, 0), (1, 1), (1, 2), (1, 3),
   (2, 0), (2, 1), (2, 2), (2, 3), (3, 0), (3, 1), (3, 2), (3, 3)]

/-- Round-trip counterexample translation table: point 0 at radar
(azimuth, range) = (0, 1/10) with geographic (lon, lat) = (0, 0); point 1 at
radar (0, 0) with geographic (lon, lat) = (100, 100).  The two points are
radar-coincident up to 1/10 of a cell but 100 units apart geographically. -/
def roundtripTrans : List TransRow :=
  [⟨1/10, 0, 0, 0, 0⟩, ⟨0, 0, 0, 100, 100⟩]

/-- Round-trip counterexample extents: one block holding both translation
points. -/
def roundtripExtents : List BlockExtent := [⟨0, 0, 0, 0, 0, 1/10⟩]

/-- Round-trip counterexample block data: block (0, 0) holds the two
translation points' (azimuth, range, label) triples. -/
def roundtripBlockData : ℕ → ℕ → List (ℚ × ℚ × ℕ) := fun iy ix =>
  if iy = 0 ∧ ix = 0 then [(0, 1/10, 0), (0, 0, 1)] else []

/-! Helper lemmas about the embedding's building blocks. -/

lemma distSq_comm (a b : ℚ × ℚ) : distSq a b = distSq b a := by
  unfold distSq; ring

lemma leSqrtTol_mono {q q' s eps : ℚ} (hle : q' ≤ q)
    (h : leSqrtTol q s eps = true) : leSqrtTol q' s eps = true := by
  unfold leSqrtTol at h ⊢
  rcases Bool.or_eq_true_iff.mp h with h1 | h1
  · have h1 : q - s - eps^2 ≤ 0 := of_decide_eq_true h1
    exact Bool.or_eq_true_iff.mpr (Or.inl (decide_eq_true (by linarith)))
  · have h1 : (q - s - eps^2)^2 ≤ 4 * eps^2 * s := of_decide_eq_true h1
    by_cases h2 : q' - s - eps^2 ≤ 0
    · exact Bool.or_eq_true_iff.mpr (Or.inl (decide_eq_true h2))
    · push_neg at h2
      refine Bool.or_eq_true_iff.mpr (Or.inr (decide_eq_true ?_))
      have hq : (0:ℚ) < q - s - eps^2 := by linarith
      nlinarith [sq_nonneg (q - s - eps^2), sq_nonneg (q' - s - eps^2)]

/-- Correctness of the rational tolerance test: leSqrtTol decides exactly the
comparison of a squared distance against the square of the real bound
sqrt s + eps that cKDTree.query uses as distance_upper_bound. -/
lemma leSqrtTol_iff_real {q s eps : ℚ} (hs : 0 ≤ s) (heps : 0 ≤ eps) :
    leSqrtTol q s eps = true ↔
      (q : ℝ) ≤ (Real.sqrt (s : ℝ) + (eps : ℝ))^2 := by
  have hsR : (0:ℝ) ≤ (s:ℝ) := by exact_mod_cast hs
  have hepsR : (0:ℝ) ≤ (eps:ℝ) := by exact_mod_cast heps
  have hsqrt : Real.sqrt (s:ℝ) ^ 2 = (s:ℝ) := Real.sq_sqrt hsR
  have hsqrt0 : (0:ℝ) ≤ Real.sqrt (s:ℝ) := Real.sqrt_nonneg _
  unfold leSqrtTol
  rw [Bool.or_eq_true_iff, decide_eq_true_eq, decide_eq_true_eq]
  constructor
  · rintro (h | h)
    · have hR : ((q:ℝ) - s - eps^2) ≤ 0 := by exact_mod_cast h
      nlinarith [mul_nonneg hepsR hsqrt0]
    · have hR : ((q:ℝ) - s - eps^2)^2 ≤ 4 * (eps:ℝ)^2 * s := by exact_mod_cast h
      by_cases htn : (q:ℝ) - s - eps^2 ≤ 0
      · nlinarith [mul_nonneg hepsR hsqrt0]
      · push_neg at htn
        have hplus : (0:ℝ) ≤ ((q:ℝ) - s - eps^2) + 2*eps*Real.sqrt s := by
          nlinarith [mul_nonneg hepsR hsqrt0]
        nlinarith [hplus, hsqrt, mul_nonneg hepsR hsqrt0]
  · intro hreal
    by_cases htn : q - s - eps^2 ≤ 0
    · exact Or.inl htn
    · right
      push_neg at htn
      have htnR : (0:ℝ) < (q:ℝ) - s - eps^2 := by exact_mod_cast htn
      have hle : (q:ℝ) - s - eps^2 ≤ 2*eps*Real.sqrt s := by
        nlinarith [hsqrt]
      have hR : ((q:ℝ) - s - eps^2)^2 ≤ 4*(eps:ℝ)^2*s := by
        nlinarith [mul_nonneg hepsR hsqrt0, hsqrt]
      exact_mod_cast hR

lemma argminDistSq_eq_none {p : ℚ × ℚ} {l : List (ℚ × ℚ)} {i : ℕ} :
    argminDistSq p l i = none ↔ l = [] := by
  cases l with
  | nil => simp [argminDistSq]
  | cons a rest =>
    simp only [argminDistSq]
    cases argminDistSq p rest (i+1) with
    | none => simp
    | some jd =>
      obtain ⟨j, d⟩ := jd
      by_cases h : distSq p a ≤ d <;> simp [h]

lemma argminDistSq_spec {p : ℚ × ℚ} :
    ∀ {l : List (ℚ × ℚ)} {i j : ℕ} {d : ℚ},
      argminDistSq p l i = some (j, d) →
      i ≤ j ∧ ∃ q, l[j - i]? = some q ∧ d = distSq p q := by
  intro l
  induction l with
  | nil => intro i j d h; simp [argminDistSq] at h
  | cons a rest ih =>
    intro i j d h
    simp only [argminDistSq] at h
    cases hrec : argminDistSq p rest (i+1) with
    | none =>
      rw [hrec] at h
      simp only [Option.some.injEq, Prod.mk.injEq] at h
      obtain ⟨hj, hd⟩ := h
      subst hj; subst hd
      exact ⟨le_refl i, a, by simp, rfl⟩
    | some jd =>
      rw [hrec] at h
      obtain ⟨j', d'⟩ := jd
      by_cases hle : distSq p a ≤ d'
      · simp only [hle, if_true, Option.some.injEq, Prod.mk.injEq] at h
        obtain ⟨hj, hd⟩ := h
        subst hj; subst hd
        exact ⟨le_refl i, a, by simp, rfl⟩
      · simp only [hle, if_false, Option.some.injEq, Prod.mk.injEq] at h
        obtain ⟨hj, hd⟩ := h
        obtain ⟨hij, q, hget, hdq⟩ := ih hrec
        refine ⟨by omega, q, ?_, by rw [← hd, hdq]⟩
        have hidx : j - i = (j' - (i+1)) + 1 := by omega
        rw [hidx, List.getElem?_cons_succ]
        exact hget

lemma argminDistSq_min {p : ℚ × ℚ} :
    ∀ {l : List (ℚ × ℚ)} {i j : ℕ} {d : ℚ},
      argminDistSq p l i = some (j, d) → ∀ q ∈ l, d ≤ distSq p q := by
  intro l
  induction l with
  | nil => intro i j d h; simp [argminDistSq] at h
  | cons a rest ih =>
    intro i j d h q hq
    simp only [argminDistSq] at h
    cases hrec : argminDistSq p rest (i+1) with
    | none =>
      rw [hrec] at h
      have hrest : rest = [] := argminDistSq_eq_none.mp hrec
      subst hrest
      simp only [Option.some.injEq, Prod.mk.injEq] at h
      obtain ⟨_, hd⟩ := h
      subst hd
      simp only [List.mem_singleton] at hq
      subst hq
      exact le_refl _
    | some jd =>
      rw [hrec] at h
      obtain ⟨j', d'⟩ := jd
      rcases List.mem_cons.mp hq with hqa | hqrest
      · subst hqa
        change (if distSq p q ≤ d' then some (i, distSq p q)
          else some (j', d')) = some (j, d) at h
        by_cases hle : distSq p q ≤ d'
        · rw [if_pos hle] at h
          simp only [Option.some.injEq, Prod.mk.injEq] at h
          exact le_of_eq h.2.symm
        · rw [if_neg hle] at h
          simp only [Option.some.injEq, Prod.mk.injEq] at h
          rw [← h.2]
          linarith [not_le.mp hle]
      · by_cases hle : distSq p a ≤ d'
        · simp only [hle, if_true, Option.some.injEq, Prod.mk.injEq] at h
          rw [← h.2]
          exact hle.trans (ih hrec q hqrest)
        · simp only [hle, if_false, Option.some.injEq, Prod.mk.injEq] at h
          rw [← h.2]
          exact ih hrec q hqrest

lemma treeQueryOne_eq_some {srcs : List (ℚ × ℚ)} {p : ℚ × ℚ} {s eps : ℚ} {j : ℕ}
    (h : treeQueryOne srcs p s eps = some j) :
    ∃ q, srcs[j]? = some q ∧ leSqrtTol (distSq p q) s eps = true ∧
      ∀ r ∈ srcs, distSq p q ≤ distSq p r := by
  unfold treeQueryOne at h
  cases hrec : argminDistSq p srcs 0 with
  | none => rw [hrec] at h; exact absurd h (by simp)
  | some jd =>
    rw [hrec] at h
    obtain ⟨j', d⟩ := jd
    by_cases htol : leSqrtTol d s eps = true
    · simp only [htol, if_true, Option.some.injEq] at h
      subst h
      obtain ⟨-, q, hget, hdq⟩ := argminDistSq_spec hrec
      rw [Nat.sub_zero] at hget
      subst hdq
      exact ⟨q, hget, htol, argminDistSq_min hrec⟩
    · rw [Bool.not_eq_true] at htol
      simp [htol] at h

lemma treeQueryOne_eq_none_of_far {srcs : List (ℚ × ℚ)} {p : ℚ × ℚ} {s eps : ℚ}
    (hfar : ∀ q ∈ srcs, leSqrtTol (distSq p q) s eps = false) :
    treeQueryOne srcs p s eps = none := by
  unfold treeQueryOne
  cases hrec : argminDistSq p srcs 0 with
  | none => rfl
  | some jd =>
    obtain ⟨j, d⟩ := jd
    obtain ⟨-, q, hget, hdq⟩ := argminDistSq_spec hrec
    subst hdq
    simp [hfar q (List.getElem?_mem hget)]

lemma pyGet_ok_mem {α : Type} {l : List α} {i : Int} {v : α}
    (h : pyGet l i = .ok v) : v ∈ l := by
  unfold pyGet at h
  split at h
  · exact Except.ok.inj h ▸ List.get_mem _ _ _
  · split at h
    · exact Except.ok.inj h ▸ List.get_mem _ _ _
    · exact absurd h (by simp)

lemma pyGet_ok_of_nonneg {α : Type} {l : List α} {i : Int} {v : α}
    (hi : 0 ≤ i) (h : pyGet l i = .ok v) : l[i.toNat]? = some v := by
  unfold pyGet at h
  split at h
  · next hb =>
    have := Except.ok.inj h
    subst this
    exact (List.getElem?_eq_some).mpr ⟨by omega, by simp [List.get_eq_getElem]⟩
  · split at h
    · next hb => omega
    · exact absurd h (by simp)

lemma pyGet_ok_of_bounds {α : Type} {l : List α} {i : Int}
    (h1 : -(l.length : Int) ≤ i) (h2 : i < (l.length : Int)) :
    ∃ v, pyGet l i = .ok v := by
  unfold pyGet
  by_cases hpos : 0 ≤ i ∧ i < (l.length : Int)
  · rw [dif_pos hpos]; exact ⟨_, rfl⟩
  · rw [dif_neg hpos, dif_pos (by omega)]; exact ⟨_, rfl⟩

lemma mapME_ok_length {α β : Type} {f : α → Except String β} :
    ∀ {l : List α} {g : List β}, mapME f l = .ok g → g.length = l.length := by
  intro l
  induction l with
  | nil => intro g h; simp only [mapME, Except.ok.injEq] at h; subst h; rfl
  | cons a rest ih =>
    intro g h
    simp only [mapME] at h
    cases hfa : f a with
    | error e => rw [hfa] at h; exact absurd h (by simp)
    | ok b =>
      rw [hfa] at h
      cases hrec : mapME f rest with
      | error e => rw [hrec] at h; exact absurd h (by simp)
      | ok bs =>
        rw [hrec] at h
        have := Except.ok.inj h
        subst this
        simp [ih hrec]

lemma mapME_ok_nth {α β : Type} {f : α → Except String β} :
    ∀ {l : List α} {g : List β} {n : ℕ} {a : α},
      mapME f l = .ok g → l[n]? = some a → ∃ b, f a = .ok b ∧ g[n]? = some b := by
  intro l
  induction l with
  | nil => intro g n a _ ha; simp at ha
  | cons x rest ih =>
    intro g n a h ha
    simp only [mapME] at h
    cases hfa : f x with
    | error e => rw [hfa] at h; exact absurd h (by simp)
    | ok b =>
      rw [hfa] at h
      cases hrec : mapME f rest with
      | error e => rw [hrec] at h; exact absurd h (by simp)
      | ok bs =>
        rw [hrec] at h
        have := Except.ok.inj h
        subst this
        cases n with
        | zero =>
          simp only [List.getElem?_cons_zero, Option.some.injEq] at ha
          subst ha
          exact ⟨b, hfa, by simp⟩
        | succ m =>
          rw [List.getElem?_cons_succ] at ha
          obtain ⟨b', hb', hg⟩ := ih hrec ha
          exact ⟨b', hb', by simpa using hg⟩

lemma mapME_ok_mem {α β : Type} {f : α → Except String β} :
    ∀ {l : List α} {g : List β},
      mapME f l = .ok g → ∀ b ∈ g, ∃ a ∈ l, f a = .ok b := by
  intro l
  induction l with
  | nil =>
    intro g h b hb
    simp only [mapME, Except.ok.injEq] at h
    subst h
    simp at hb
  | cons x rest ih =>
    intro g h b hb
    simp only [mapME] at h
    cases hfa : f x with
    | error e => rw [hfa] at h; exact absurd h (by simp)
    | ok b' =>
      rw [hfa] at h
      cases hrec : mapME f rest with
      | error e => rw [hrec] at h; exact absurd h (by simp)
      | ok bs =>
        rw [hrec] at h
        have := Except.ok.inj h
        subst this
        rcases List.mem_cons.mp hb with hb1 | hb1
        · subst hb1; exact ⟨x, List.mem_cons_self x rest, hfa⟩
        · obtain ⟨a, ha, hfa'⟩ := ih hrec b hb1
          exact ⟨a, List.mem_cons_of_mem x ha, hfa'⟩

lemma mapME_ok_of_all {α β : Type} {f : α → Except String β} :
    ∀ {l : List α}, (∀ a ∈ l, ∃ b, f a = .ok b) → ∃ g, mapME f l = .ok g := by
  intro l
  induction l with
  | nil => intro _; exact ⟨[], rfl⟩
  | cons x rest ih =>
    intro h
    obtain ⟨b, hb⟩ := h x (List.mem_cons_self x rest)
    obtain ⟨bs, hbs⟩ := ih (fun a ha => h a (List.mem_cons_of_mem x ha))
    exact ⟨b :: bs, by simp only [mapME, hb, hbs]⟩

lemma length_broadcastYX (ys xs : List ℚ) :
    (broadcastYX ys xs).length = ys.length * xs.length := by
  induction ys with
  | nil => simp [broadcastYX]
  | cons y rest ih =>
    simp only [broadcastYX, List.map_cons, List.flatten_cons, List.length_append,
      List.length_map] at ih ⊢
    rw [ih, List.length_cons]
    ring

lemma intf2trans_mem {centers transYXs : List (ℚ × ℚ)} {s eps : ℚ} {v : Int}
    (h : v ∈ intf2trans centers transYXs s eps) :
    v = -1 ∨ (0 ≤ v ∧ v < (centers.length : Int)) := by
  unfold intf2trans at h
  obtain ⟨p, -, hv⟩ := List.mem_map.mp h
  cases hq : treeQueryOne centers p s eps with
  | none => simp only [hq] at hv; exact Or.inl hv.symm
  | some j =>
    simp only [hq] at hv
    obtain ⟨q, hget, -, -⟩ := treeQueryOne_eq_some hq
    have hj : j < centers.length := by
      rcases List.getElem?_eq_some.mp hget with ⟨hlt, -⟩
      exact hlt
    right
    constructor
    · rw [← hv]; exact Int.ofNat_nonneg j
    · rw [← hv]; exact_mod_cast hj

lemma intf_ra2ll_values_ok_iff {y0 y1 x0 x1 : ℚ} {ys xs : List ℚ}
    {trans : List TransRow} {tr : List Int} {V : List Int} :
    intf_ra2ll_values (y0::y1::ys) (x0::x1::xs) trans tr = .ok V ↔
    ∃ g, mapME (pyGet (intf2trans (broadcastYX (y0::y1::ys) (x0::x1::xs))
        (trans.map (fun t => (t.a, t.r)))
        (((x1 - x0)/2)^2 + ((y1 - y0)/2)^2) (1/100))) tr = .ok g ∧
      V = (tr.zip g).map (fun p => if 0 ≤ p.1 then p.2 else -1) := by
  simp only [intf_ra2ll_values]
  cases hg : mapME (pyGet (intf2trans (broadcastYX (y0::y1::ys) (x0::x1::xs))
      (trans.map (fun t => (t.a, t.r)))
      (((x1 - x0)/2)^2 + ((y1 - y0)/2)^2) (1/100))) tr with
  | error e => simp
  | ok g =>
    simp only [Except.ok.injEq]
    constructor
    · intro h; exact ⟨g, rfl, h.symm⟩
    · rintro ⟨g', hg', hV⟩
      subst hg'
      exact hV.symm

lemma intf_ra2ll_values_ok_shape {ys xs : List ℚ} {trans : List TransRow}
    {tr : List Int} {V : List Int}
    (h : intf_ra2ll_values ys xs trans tr = .ok V) :
    ∃ y0 y1 ys' x0 x1 xs', ys = y0 :: y1 :: ys' ∧ xs = x0 :: x1 :: xs' := by
  rcases ys with - | ⟨y0, ys1⟩
  · simp [intf_ra2ll_values] at h
  rcases ys1 with - | ⟨y1, ys'⟩
  · simp [intf_ra2ll_values] at h
  rcases xs with - | ⟨x0, xs1⟩
  · simp [intf_ra2ll_values] at h
  rcases xs1 with - | ⟨x1, xs'⟩
  · simp [intf_ra2ll_values] at h
  exact ⟨y0, y1, ys', x0, x1, xs', rfl, rfl⟩

lemma intf_ra2ll_matrix_eq {ys xs : List ℚ} {trans : List TransRow}
    {tr : List Int} {V : List Int}
    (hV : intf_ra2ll_values ys xs trans tr = .ok V) :
    intf_ra2ll_matrix ys xs trans tr =
      match V.max? with
      | none => .error "ValueError: zero-size array to reduction operation"
      | some m =>
        if ((ys.length * xs.length : ℕ) : Int) > m then .ok V
        else .error "AssertionError: transform matrix size is too small for interferograms largest index" := by
  unfold intf_ra2ll_matrix
  rw [hV]

lemma intf_ra2ll_matrix_ok_values {ys xs : List ℚ} {trans : List TransRow}
    {tr : List Int} {M : List Int}
    (hM : intf_ra2ll_matrix ys xs trans tr = .ok M) :
    intf_ra2ll_values ys xs trans tr = .ok M := by
  cases hv : intf_ra2ll_values ys xs trans tr with
  | error e =>
    unfold intf_ra2ll_matrix at hM
    rw [hv] at hM
    simp at hM
  | ok V =>
    rw [intf_ra2ll_matrix_eq hv] at hM
    cases hmax : V.max? with
    | none => rw [hmax] at hM; exact absurd hM (by simp)
    | some m =>
      rw [hmax] at hM
      have hM2 : (if ((ys.length * xs.length : ℕ) : Int) > m then
          (Except.ok V : Except String (List Int))
          else .error "AssertionError: transform matrix size is too small for interferograms largest index") =
          .ok M := hM
      by_cases hlt : ((ys.length * xs.length : ℕ) : Int) > m
      · rw [if_pos hlt] at hM2
        exact hM2
      · rw [if_neg hlt] at hM2
        exact absurd hM2 (by simp)

lemma calc_intf_ll2ra_matrix_ok {extents : List BlockExtent}
    {blockData : ℕ → ℕ → List (ℚ × ℚ × ℕ)} {targets : List (ℚ × ℚ)}
    {L : List ℕ}
    (hL : calc_intf_ll2ra_matrix extents blockData targets = .ok L) :
    targets ≠ [] ∧ candsOf extents blockData targets ≠ [] ∧
      L = targets.map (nearestLabel (candsOf extents blockData targets)) := by
  cases targets with
  | nil => exact absurd hL (by simp [calc_intf_ll2ra_matrix])
  | cons t0 rest =>
    simp only [calc_intf_ll2ra_matrix] at hL
    cases hc : candsOf extents blockData (t0 :: rest) with
    | nil => rw [hc] at hL; exact absurd hL (by simp)
    | cons c cs =>
      rw [hc] at hL
      exact ⟨by simp, by simp [hc], (Except.ok.inj hL).symm⟩

lemma nearestLabel_spec {cands : List (ℚ × ℚ × ℕ)} (hne : cands ≠ [])
    (t : ℚ × ℚ) :
    ∃ (j : ℕ) (q : ℚ × ℚ × ℕ), cands[j]? = some q ∧
      nearestLabel cands t = q.2.2 ∧
      ∀ r ∈ cands, distSq t (q.1, q.2.1) ≤ distSq t (r.1, r.2.1) := by
  unfold nearestLabel
  cases hrec : argminDistSq t (cands.map (fun c => (c.1, c.2.1))) 0 with
  | none =>
    exact absurd (List.map_eq_nil_iff.mp (argminDistSq_eq_none.mp hrec)) hne
  | some jd =>
    obtain ⟨j, d⟩ := jd
    obtain ⟨-, q', hget, hdq⟩ := argminDistSq_spec hrec
    rw [Nat.sub_zero, List.getElem?_map] at hget
    cases hc : cands[j]? with
    | none => rw [hc] at hget; exact absurd hget (by simp)
    | some q =>
      rw [hc] at hget
      have hq' : q' = (q.1, q.2.1) := by
        simpa using hget.symm
      refine ⟨j, q, hc, by simp [hc], ?_⟩
      intro r hr
      have hmin := argminDistSq_min hrec (r.1, r.2.1)
        (List.mem_map.mpr ⟨r, hr, rfl⟩)
      rw [hdq, hq'] at hmin
      exact hmin

lemma gatherCandidates_mem {extents : List BlockExtent}
    {blockData : ℕ → ℕ → List (ℚ × ℚ × ℕ)} {ymin ymax xmin xmax : ℚ}
    {q : ℚ × ℚ × ℕ}
    (h : q ∈ gatherCandidates extents blockData ymin ymax xmin xmax) :
    ∃ iy ix, q ∈ blockData iy ix := by
  unfold gatherCandidates at h
  obtain ⟨l, hl, hq⟩ := List.mem_flatten.mp h
  obtain ⟨b, -, hb⟩ := List.mem_map.mp hl
  exact ⟨b.iy, b.ix, hb ▸ hq⟩

lemma candsOf_mem {extents : List BlockExtent}
    {blockData : ℕ → ℕ → List (ℚ × ℚ × ℕ)} {targets : List (ℚ × ℚ)}
    {q : ℚ × ℚ × ℕ} (h : q ∈ candsOf extents blockData targets) :
    ∃ iy ix, q ∈ blockData iy ix := by
  cases targets with
  | nil => simp [candsOf] at h
  | cons t0 rest => exact gatherCandidates_mem h

lemma foldl_min_le_init (l : List ℚ) (a : ℚ) : l.foldl min a ≤ a := by
  induction l generalizing a with
  | nil => exact le_refl a
  | cons x rest ih => exact (ih (min a x)).trans (min_le_left a x)

lemma init_le_foldl_max (l : List ℚ) (a : ℚ) : a ≤ l.foldl max a := by
  induction l generalizing a with
  | nil => exact le_refl a
  | cons x rest ih => exact (le_max_left a x).trans (ih (max a x))

lemma interval_intersect_iff {a1 a2 b1 b2 : ℚ} (ha : a1 ≤ a2) (hb : b1 ≤ b2) :
    (∃ z, a1 ≤ z ∧ z ≤ a2 ∧ b1 ≤ z ∧ z ≤ b2) ↔ (b1 ≤ a2 ∧ a1 ≤ b2) := by
  constructor
  · rintro ⟨z, h1, h2, h3, h4⟩
    exact ⟨h3.trans h2, h1.trans h4⟩
  · rintro ⟨h1, h2⟩
    exact ⟨max a1 b1, le_max_left _ _, max_le ha h1, le_max_right _ _,
      max_le h2 hb⟩

/-! The claim theorems. -/

/-- C3: the forward resampler's inner ra2ll does substitute -1 for matrix
entries at or past the layer's flattened size, but its NaN guard tests the
UNMASKED matrix, so such a cell receives the layer's last element instead of
NaN.  With forward matrix [0, 3] and a layer of flattened size 3 holding
[10, 20, 30], entry 3 is substituted by -1, yet the output is
[10, 30] with no NaN: cell 1 reads the value 30 from the layer, contradicting
the claim that every cell whose substituted entry is -1 yields NaN. -/
theorem ra2ll_substituted_cell_reads_layer :
    ra2ll [0, 3] [10, 20, 30] = .ok [some 10, some 30] ∧
    ([0, 3] : List Int).map (fun v => if v < (3 : Int) then v else -1) =
      [0, -1] := by
  exact ⟨rfl, rfl⟩

/-- C4: the helper check of intf_ra2ll parses as
(not ('y' in dims)) and ('x' in dims) by Python operator precedence, so a
raster lacking BOTH radar axes (dims lat, lon) does not take the passthrough
branch: the check is false and the function proceeds to geocode, contrary to
the claimed no-op passthrough. -/
theorem intf_ra2ll_no_passthrough_without_radar_axes :
    intf_ra2ll_skips_geocoding ["lat", "lon"] = false ∧
    intf_ra2ll_skips_geocoding ["lat", "x"] = true := by
  exact ⟨rfl, rfl⟩

/-- C9: the helper check of intf_ll2ra evaluates `'lon' in grid.dims` where
the name `grid` is undefined, so a raster lacking the 'lat' axis (for example
one with radar dims y, x) raises NameError instead of being returned
unchanged. -/
theorem intf_ll2ra_check_raises_name_error :
    intf_ll2ra_check ["y", "x"] =
      .error "NameError: name grid is not defined" := by
  rfl

/-- C6: on the 4x4 radar grid with axes [0,1,2,3] x [0,1,2,3] and a
translation table of 16 points each coincident with one radar cell centre,
with the full-area mask marking all 16 geographic cells valid,
intf_ra2ll_matrix builds the forward matrix [0, ..., 15]: each flat radar
index 0..15 exactly once and no -1 entry. -/
theorem intf_ra2ll_matrix_coincident_bijection :
    intf_ra2ll_matrix [0, 1, 2, 3] [0, 1, 2, 3] coincidentTrans fullAreaMask =
      .ok [0, 1, 2, 3, 4, 5, 6, 7, 8, 9, 10, 11, 12, 13, 14, 15] ∧
    (List.range 16).all (fun k =>
      ([0, 1, 2, 3, 4, 5, 6, 7, 8, 9, 10, 11, 12, 13, 14, 15] : List Int).count
        (k : Int) = 1) = true ∧
    (-1 : Int) ∉
      ([0, 1, 2, 3, 4, 5, 6, 7, 8, 9, 10, 11, 12, 13, 14, 15] : List Int) := by
  refine ⟨rfl, by decide, by decide⟩

/-- C5: inside intf_ra2ll_matrix run on grid axes y0 :: y1 :: ys and
x0 :: x1 :: xs (so the query's distance bound is
sqrt (((x1-x0)/2)^2 + ((y1-y0)/2)^2) + 1e-2), a translation-table point p
whose distance to EVERY radar grid cell centre exceeds that bound is assigned
-1 in the intf2trans index mask — not the index of its nearest but
out-of-tolerance centre. -/
theorem intf2trans_out_of_tolerance_sentinel
    (y0 y1 x0 x1 : ℚ) (ys xs : List ℚ) (trans : List TransRow)
    (j : ℕ) (p : ℚ × ℚ)
    (hp : (trans.map (fun t => (t.a, t.r)))[j]? = some p)
    (hfar : ∀ c ∈ broadcastYX (y0 :: y1 :: ys) (x0 :: x1 :: xs),
      leSqrtTol (distSq p c) (((x1 - x0)/2)^2 + ((y1 - y0)/2)^2)
        (1/100) = false) :
    (intf2trans (broadcastYX (y0 :: y1 :: ys) (x0 :: x1 :: xs))
      (trans.map (fun t => (t.a, t.r)))
      (((x1 - x0)/2)^2 + ((y1 - y0)/2)^2) (1/100))[j]? = some (-1) := by
  unfold intf2trans
  rw [List.getElem?_map, hp]
  rw [Option.map_some', treeQueryOne_eq_none_of_far hfar]

/-- Witness for C5: the single translation-table point at radar coordinates
(azimuth, range) = (10, 10) is farther than the bound from every centre of
the 2x2 radar grid on axes [0, 1] x [0, 1] and is assigned -1. -/
theorem intf2trans_out_of_tolerance_sentinel_witness :
    (intf2trans (broadcastYX [0, 1] [0, 1])
      (([⟨10, 10, 0, 0, 0⟩] : List TransRow).map (fun t => (t.a, t.r)))
      (((1 - 0)/2)^2 + ((1 - 0)/2)^2) (1/100))[0]? = some (-1) :=
  intf2trans_out_of_tolerance_sentinel 0 1 0 1 [] [] [⟨10, 10, 0, 0, 0⟩]
    0 (10, 10) (by decide) (by decide)

/-- Shared helper: every entry of a successfully built inverse matrix is
below tableSize whenever every label in every trans_dat block is. -/
lemma calc_matrix_entries_lt {extents : List BlockExtent}
    {blockData : ℕ → ℕ → List (ℚ × ℚ × ℕ)} {targets : List (ℚ × ℚ)}
    {L : List ℕ} {tableSize : ℕ}
    (hL : calc_intf_ll2ra_matrix extents blockData targets = .ok L)
    (hlab : ∀ iy ix, ∀ c ∈ blockData iy ix, c.2.2 < tableSize) :
    ∀ v ∈ L, v < tableSize := by
  intro v hv
  obtain ⟨-, hcne, hLeq⟩ := calc_intf_ll2ra_matrix_ok hL
  subst hLeq
  obtain ⟨t, -, hvt⟩ := List.mem_map.mp hv
  obtain ⟨j, q, hjq, hlabel, -⟩ := nearestLabel_spec hcne t
  rw [← hvt, hlabel]
  obtain ⟨iy, ix, hqb⟩ := candsOf_mem (List.getElem?_mem hjq)
  exact hlab iy ix q hqb

lemma wBlockData_labels_lt : ∀ iy ix, ∀ c ∈ wBlockData iy ix, c.2.2 < 16 := by
  intro iy ix c hc
  unfold wBlockData at hc
  by_cases h : iy = 0 ∧ ix = 0
  · rw [if_pos h] at hc
    obtain ⟨j, hj, hcj⟩ := List.mem_map.mp hc
    rw [← hcj]
    exact List.mem_range.mp hj
  · rw [if_neg h] at hc
    simp at hc

/-- C7: given that the value array V of intf_ra2ll_matrix was built
successfully (the gather over a well-formed trans_ra2ll succeeded),
intf_ra2ll_matrix fails — with the assert's error — exactly when some entry
of V reaches the interferogram reference grid's total cell count
ys.length * xs.length, i.e. when the maximum entry is not strictly below it;
and it completes returning the built matrix V (which the source then
persists) whenever every entry is below the bound. -/
theorem intf_ra2ll_matrix_post_check (ys xs : List ℚ) (trans : List TransRow)
    (tr : List Int) (V : List Int) (m : Int)
    (hV : intf_ra2ll_values ys xs trans tr = .ok V)
    (hm : V.max? = some m) :
    ((∃ e, intf_ra2ll_matrix ys xs trans tr = .error e) ↔
      ((ys.length * xs.length : ℕ) : Int) ≤ m) ∧
    (m < ((ys.length * xs.length : ℕ) : Int) →
      intf_ra2ll_matrix ys xs trans tr = .ok V) := by
  rw [intf_ra2ll_matrix_eq hV, hm]
  have heq : (match (some m : Option Int) with
      | none => (Except.error "ValueError: zero-size array to reduction operation" :
          Except String (List Int))
      | some m =>
        if ((ys.length * xs.length : ℕ) : Int) > m then .ok V
        else .error "AssertionError: transform matrix size is too small for interferograms largest index") =
      (if ((ys.length * xs.length : ℕ) : Int) > m then .ok V
       else .error "AssertionError: transform matrix size is too small for interferograms largest index") :=
    rfl
  rw [heq]
  by_cases hgt : ((ys.length * xs.length : ℕ) : Int) > m
  · rw [if_pos hgt]
    constructor
    · constructor
      · rintro ⟨e, he⟩
        exact absurd he (by simp)
      · intro hle
        exact absurd hle (by omega)
    · intro _
      rfl
  · rw [if_neg hgt]
    constructor
    · constructor
      · rintro -
        omega
      · rintro -
        exact ⟨_, rfl⟩
    · intro hlt
      exact absurd hlt (by omega)

/-- Witness for C7 on the coincident 4x4 scenario: the built value array is
[0, ..., 15] with maximum 15, strictly below the cell count 16, so no error
occurs and the matrix is returned. -/
theorem intf_ra2ll_matrix_post_check_witness :
    ((∃ e, intf_ra2ll_matrix [0, 1, 2, 3] [0, 1, 2, 3] coincidentTrans
        fullAreaMask = .error e) ↔
      ((16 : ℕ) : Int) ≤ 15) ∧
    ((15 : Int) < ((16 : ℕ) : Int) →
      intf_ra2ll_matrix [0, 1, 2, 3] [0, 1, 2, 3] coincidentTrans fullAreaMask =
        .ok [0, 1, 2, 3, 4, 5, 6, 7, 8, 9, 10, 11, 12, 13, 14, 15]) :=
  intf_ra2ll_matrix_post_check [0, 1, 2, 3] [0, 1, 2, 3] coincidentTrans
    fullAreaMask [0, 1, 2, 3, 4, 5, 6, 7, 8, 9, 10, 11, 12, 13, 14, 15] 15
    rfl rfl

/-- C2: sentinel consistency of both builders.  Every entry of a forward
matrix built by intf_ra2ll_matrix is exactly -1 or a valid flat index of the
interferogram grid (below ys.length * xs.length); and every entry of an
inverse matrix built by calc_intf_ll2ra_matrix is a valid index below the
translation-table size, given that every gathered block label is (in the
source the labels are arange values below the table size, so the inverse
matrix in particular never holds any other out-of-range value). -/
theorem builders_sentinel_consistency
    (ys xs : List ℚ) (trans : List TransRow) (tr : List Int) (M : List Int)
    (extents : List BlockExtent) (blockData : ℕ → ℕ → List (ℚ × ℚ × ℕ))
    (targets : List (ℚ × ℚ)) (L : List ℕ) (tableSize : ℕ)
    (hM : intf_ra2ll_matrix ys xs trans tr = .ok M)
    (hL : calc_intf_ll2ra_matrix extents blockData targets = .ok L)
    (hlab : ∀ iy ix, ∀ c ∈ blockData iy ix, c.2.2 < tableSize) :
    (∀ v ∈ M, v = -1 ∨ (0 ≤ v ∧ v < ((ys.length * xs.length : ℕ) : Int))) ∧
    (∀ v ∈ L, v < tableSize) := by
  constructor
  · intro v hv
    have hval := intf_ra2ll_matrix_ok_values hM
    obtain ⟨y0, y1, ys', x0, x1, xs', hys, hxs⟩ := intf_ra2ll_values_ok_shape hval
    subst hys; subst hxs
    obtain ⟨g, hg, hMeq⟩ := intf_ra2ll_values_ok_iff.mp hval
    subst hMeq
    obtain ⟨⟨t1, g1⟩, hpq, hvq⟩ := List.mem_map.mp hv
    dsimp only at hvq
    by_cases hpos : (0 : Int) ≤ t1
    · rw [if_pos hpos] at hvq
      subst hvq
      have hmem2 : g1 ∈ g := (List.of_mem_zip hpq).2
      obtain ⟨a, ha, hfa⟩ := mapME_ok_mem hg g1 hmem2
      have := intf2trans_mem (pyGet_ok_mem hfa)
      rwa [length_broadcastYX] at this
    · rw [if_neg hpos] at hvq
      exact Or.inl hvq.symm
  · exact calc_matrix_entries_lt hL hlab

/-- Witness for C2 on the coincident 4x4 scenario: forward matrix
[0, ..., 15] over a 16-cell grid and inverse matrix [0, ..., 15] over a
16-point table, all entries in range. -/
theorem builders_sentinel_consistency_witness :
    (∀ v ∈ ([0, 1, 2, 3, 4, 5, 6, 7, 8, 9, 10, 11, 12, 13, 14, 15] : List Int),
      v = -1 ∨ (0 ≤ v ∧ v < ((16 : ℕ) : Int))) ∧
    (∀ v ∈ ([0, 1, 2, 3, 4, 5, 6, 7, 8, 9, 10, 11, 12, 13, 14, 15] : List ℕ),
      v < 16) :=
  builders_sentinel_consistency [0, 1, 2, 3] [0, 1, 2, 3] coincidentTrans
    fullAreaMask [0, 1, 2, 3, 4, 5, 6, 7, 8, 9, 10, 11, 12, 13, 14, 15]
    wExtents wBlockData (broadcastYX [0, 1, 2, 3] [0, 1, 2, 3])
    [0, 1, 2, 3, 4, 5, 6, 7, 8, 9, 10, 11, 12, 13, 14, 15] 16
    rfl rfl wBlockData_labels_lt

/-- C10: an inverse matrix built by calc_intf_ll2ra_matrix holds only valid
translation-table indices: with every gathered label below the table size (in
the source they are uint32 arange values) and the table size at most
2^32 - 1 = 4294967295, no entry equals the sentinel np.uint32(-1); hence for
any resampled layer of at least tableSize cells the inner ll2ra of intf_ll2ra
succeeds with every output cell set from the layer — the sentinel-to-NaN
branch of ll2ra is unreachable. -/
theorem inverse_matrix_no_sentinel
    (extents : List BlockExtent) (blockData : ℕ → ℕ → List (ℚ × ℚ × ℕ))
    (targets : List (ℚ × ℚ)) (L : List ℕ) (tableSize : ℕ) (grid : List ℚ)
    (hL : calc_intf_ll2ra_matrix extents blockData targets = .ok L)
    (hlab : ∀ iy ix, ∀ c ∈ blockData iy ix, c.2.2 < tableSize)
    (hsize : tableSize ≤ 4294967295)
    (hgrid : tableSize ≤ grid.length) :
    (∀ v ∈ L, v ≠ 4294967295) ∧
    ∃ out, ll2ra L grid = .ok out ∧ ∀ o ∈ out, o.isSome = true := by
  have hvlt := calc_matrix_entries_lt hL hlab
  refine ⟨fun v hv => by have := hvlt v hv; omega, ?_⟩
  have hgather : ∀ v ∈ L, ∃ b,
      (if h : v < grid.length then Except.ok (grid.get ⟨v, h⟩)
       else Except.error "IndexError: index out of bounds") = Except.ok b := by
    intro v hv
    have := hvlt v hv
    rw [dif_pos (by omega : v < grid.length)]
    exact ⟨_, rfl⟩
  obtain ⟨g, hg⟩ := @mapME_ok_of_all ℕ ℚ
    (fun v => if h : v < grid.length then Except.ok (grid.get ⟨v, h⟩)
      else Except.error "IndexError: index out of bounds") L hgather
  refine ⟨(L.zip g).map (fun p => if p.1 ≠ 4294967295 then some p.2 else none),
    ?_, ?_⟩
  · unfold ll2ra
    rw [hg]
  · intro o ho
    obtain ⟨⟨v, b⟩, hpq, hob⟩ := List.mem_map.mp ho
    dsimp only at hob
    have hvL : v ∈ L := (List.of_mem_zip hpq).1
    have hne : v ≠ 4294967295 := by have := hvlt v hvL; omega
    rw [if_pos hne] at hob
    rw [← hob]
    rfl

/-- Witness for C10: the inverse matrix [0, ..., 15] of the coincident
scenario has no sentinel entry and resampling a 16-cell layer through ll2ra
produces a fully defined output. -/
theorem inverse_matrix_no_sentinel_witness :
    (∀ v ∈ ([0, 1, 2, 3, 4, 5, 6, 7, 8, 9, 10, 11, 12, 13, 14, 15] : List ℕ),
      v ≠ 4294967295) ∧
    ∃ out, ll2ra [0, 1, 2, 3, 4, 5, 6, 7, 8, 9, 10, 11, 12, 13, 14, 15]
        ((List.range 16).map (fun j => (j : ℚ))) = .ok out ∧
      ∀ o ∈ out, o.isSome = true :=
  inverse_matrix_no_sentinel wExtents wBlockData
    (broadcastYX [0, 1, 2, 3] [0, 1, 2, 3])
    [0, 1, 2, 3, 4, 5, 6, 7, 8, 9, 10, 11, 12, 13, 14, 15] 16
    ((List.range 16).map (fun j => (j : ℚ)))
    rfl wBlockData_labels_lt (by omega) (by decide)

/-- C8: for a target block t0 :: rest with azimuth bounds [ymin, ymax] and
range bounds [xmin, xmax] (numpy min and max over the block's values), the
trans_dat blocks selected by the extents masks are exactly those whose
bounding box — a nonempty product of closed intervals by hwf — intersects the
target bounds expanded by one unit on each side; and on a successful build
every output cell is assigned the label of the nearest gathered candidate
point, with no distance tolerance and never an unmatched result. -/
theorem block_pruning_and_nearest_assignment
    (extents : List BlockExtent) (blockData : ℕ → ℕ → List (ℚ × ℚ × ℕ))
    (t0 : ℚ × ℚ) (rest : List (ℚ × ℚ)) (L : List ℕ)
    (hwf : ∀ b ∈ extents, b.ymin ≤ b.ymax ∧ b.xmin ≤ b.xmax)
    (hL : calc_intf_ll2ra_matrix extents blockData (t0 :: rest) = .ok L) :
    (∀ b ∈ extents,
      (b ∈ selectBlocks extents
          (((t0 :: rest).map Prod.fst).foldl min t0.1)
          (((t0 :: rest).map Prod.fst).foldl max t0.1)
          (((t0 :: rest).map Prod.snd).foldl min t0.2)
          (((t0 :: rest).map Prod.snd).foldl max t0.2) ↔
        boxIntersectsExpanded b
          (((t0 :: rest).map Prod.fst).foldl min t0.1)
          (((t0 :: rest).map Prod.fst).foldl max t0.1)
          (((t0 :: rest).map Prod.snd).foldl min t0.2)
          (((t0 :: rest).map Prod.snd).foldl max t0.2))) ∧
    (∀ (i : ℕ) (t : ℚ × ℚ), (t0 :: rest)[i]? = some t →
      ∃ (j : ℕ) (q : ℚ × ℚ × ℕ),
        (candsOf extents blockData (t0 :: rest))[j]? = some q ∧
        (∀ r ∈ candsOf extents blockData (t0 :: rest),
          distSq t (q.1, q.2.1) ≤ distSq t (r.1, r.2.1)) ∧
        L[i]? = some q.2.2) := by
  have hyy : (((t0 :: rest).map Prod.fst).foldl min t0.1) ≤
      (((t0 :: rest).map Prod.fst).foldl max t0.1) :=
    (foldl_min_le_init _ _).trans (init_le_foldl_max _ _)
  have hxx : (((t0 :: rest).map Prod.snd).foldl min t0.2) ≤
      (((t0 :: rest).map Prod.snd).foldl max t0.2) :=
    (foldl_min_le_init _ _).trans (init_le_foldl_max _ _)
  constructor
  · intro b hb
    rw [selectBlocks, List.mem_filter]
    simp only [Bool.and_eq_true, decide_eq_true_eq]
    unfold boxIntersectsExpanded
    rw [interval_intersect_iff (hwf b hb).1 (by linarith),
      interval_intersect_iff (hwf b hb).2 (by linarith)]
    constructor
    · rintro ⟨-, ⟨h1, h2⟩, h3, h4⟩
      exact ⟨⟨h1, h2⟩, h3, h4⟩
    · rintro ⟨⟨h1, h2⟩, h3, h4⟩
      exact ⟨hb, ⟨h1, h2⟩, h3, h4⟩
  · intro i t hit
    obtain ⟨-, hcne, hLeq⟩ := calc_intf_ll2ra_matrix_ok hL
    obtain ⟨j, q, hjq, hlabel, hmin⟩ := nearestLabel_spec hcne t
    refine ⟨j, q, hjq, hmin, ?_⟩
    rw [hLeq, List.getElem?_map, hit, Option.map_some', hlabel]

/-- Witness for C8 on the 4x4 scenario with two extents rows: the near block
(0,0) is selected, the far block at [100, 101] x [100, 101] is pruned, and
each of the 16 radar cells is assigned the label of its nearest (here
coincident) candidate. -/
theorem block_pruning_and_nearest_assignment_witness :
    (∀ b ∈ wExtents,
      (b ∈ selectBlocks wExtents
          ((((0, 0) :: wRest).map Prod.fst).foldl min ((0 : ℚ), (0 : ℚ)).1)
          ((((0, 0) :: wRest).map Prod.fst).foldl max ((0 : ℚ), (0 : ℚ)).1)
          ((((0, 0) :: wRest).map Prod.snd).foldl min ((0 : ℚ), (0 : ℚ)).2)
          ((((0, 0) :: wRest).map Prod.snd).foldl max ((0 : ℚ), (0 : ℚ)).2) ↔
        boxIntersectsExpanded b
          ((((0, 0) :: wRest).map Prod.fst).foldl min ((0 : ℚ), (0 : ℚ)).1)
          ((((0, 0) :: wRest).map Prod.fst).foldl max ((0 : ℚ), (0 : ℚ)).1)
          ((((0, 0) :: wRest).map Prod.snd).foldl min ((0 : ℚ), (0 : ℚ)).2)
          ((((0, 0) :: wRest).map Prod.snd).foldl max ((0 : ℚ), (0 : ℚ)).2))) ∧
    (∀ (i : ℕ) (t : ℚ × ℚ), ((0, 0) :: wRest)[i]? = some t →
      ∃ (j : ℕ) (q : ℚ × ℚ × ℕ),
        (candsOf wExtents wBlockData ((0, 0) :: wRest))[j]? = some q ∧
        (∀ r ∈ candsOf wExtents wBlockData ((0, 0) :: wRest),
          distSq t (q.1, q.2.1) ≤ distSq t (r.1, r.2.1)) ∧
        ([0, 1, 2, 3, 4, 5, 6, 7, 8, 9, 10, 11, 12, 13, 14, 15] :
          List ℕ)[i]? = some q.2.2) :=
  block_pruning_and_nearest_assignment wExtents wBlockData (0, 0) wRest
    [0, 1, 2, 3, 4, 5, 6, 7, 8, 9, 10, 11, 12, 13, 14, 15]
    (by decide) rfl

/-- C1 counterexample: on the 2x2 radar grid [0,1] x [0,1] with the
translation table roundtripTrans and a 2x2 geographic grid with lats [0,1],
lons [0,1] whose radar-area mask is [0,-1,-1,-1] (cell 0 at (lat, lon) =
(0, 0) refers to translation point 0, the other cells outside the radar
area): the forward matrix maps geographic cell 0 to radar cell 0, the inverse
matrix maps radar cell 0 to translation point 1, and point 1's geographic
location (lat, lon) = (100, 100) is NOT within the configured distance
tolerance sqrt((1/2)^2 + (1/2)^2) + 1e-2 of cell 0's location (0, 0): its
squared geographic distance 20000 fails the tolerance test.  The claimed
geographic round-trip bound is false on the code. -/
theorem roundtrip_geographic_counterexample :
    intf_ra2ll_matrix [0, 1] [0, 1] roundtripTrans [0, -1, -1, -1] =
      .ok [0, -1, -1, -1] ∧
    calc_intf_ll2ra_matrix roundtripExtents roundtripBlockData
      (broadcastYX [0, 1] [0, 1]) = .ok [1, 0, 1, 0] ∧
    (roundtripTrans[1]?).map
      (fun t => leSqrtTol (distSq (t.lat, t.lon) (0, 0))
        ((1/2)^2 + (1/2)^2) (1/100)) = some false := by
  refine ⟨rfl, rfl, by decide⟩

/-- C1 (amended): the round trip closes in RADAR coordinates, not in
geographic ones.  For every geographic cell c whose forward entry M[c] = r is
not -1 (forward matrix built by intf_ra2ll_matrix on axes y0::y1::ys and
x0::x1::xs), when the inverse matrix is built by calc_intf_ll2ra_matrix over
the same radar grid and its gathered candidate set covers every translation
point, the candidate selected for radar cell r — the translation point whose
label the inverse matrix stores at r — lies within the forward distance bound
sqrt(((x1-x0)/2)^2 + ((y1-y0)/2)^2) + 1e-2 of radar cell r's centre in
(azimuth, range) space.  Its geographic location can be arbitrarily far from
cell c, as the counterexample shows. -/
theorem roundtrip_radar_bound
    (y0 y1 x0 x1 : ℚ) (ys xs : List ℚ) (trans : List TransRow)
    (tr : List Int) (M : List Int) (L : List ℕ)
    (extents : List BlockExtent) (blockData : ℕ → ℕ → List (ℚ × ℚ × ℕ))
    (hM : intf_ra2ll_matrix (y0 :: y1 :: ys) (x0 :: x1 :: xs) trans tr = .ok M)
    (hL : calc_intf_ll2ra_matrix extents blockData
      (broadcastYX (y0 :: y1 :: ys) (x0 :: x1 :: xs)) = .ok L)
    (hcov : ∀ p ∈ trans.map (fun t => (t.a, t.r)),
      ∃ q ∈ candsOf extents blockData
        (broadcastYX (y0 :: y1 :: ys) (x0 :: x1 :: xs)), (q.1, q.2.1) = p)
    (c : ℕ) (r : Int) (hc : M[c]? = some r) (hr : 0 ≤ r) :
    ∃ (center : ℚ × ℚ) (j : ℕ) (q : ℚ × ℚ × ℕ),
      (broadcastYX (y0 :: y1 :: ys) (x0 :: x1 :: xs))[r.toNat]? =
        some center ∧
      (candsOf extents blockData
        (broadcastYX (y0 :: y1 :: ys) (x0 :: x1 :: xs)))[j]? = some q ∧
      L[r.toNat]? = some q.2.2 ∧
      leSqrtTol (distSq (q.1, q.2.1) center)
        (((x1 - x0)/2)^2 + ((y1 - y0)/2)^2) (1/100) = true := by
  have hval := intf_ra2ll_matrix_ok_values hM
  obtain ⟨g, hg, hMeq⟩ := intf_ra2ll_values_ok_iff.mp hval
  subst hMeq
  rw [List.getElem?_map] at hc
  cases hzip : (tr.zip g)[c]? with
  | none => rw [hzip] at hc; exact absurd hc (by simp)
  | some pr =>
    rw [hzip, Option.map_some'] at hc
    obtain ⟨t1, g1⟩ := pr
    have hc' := Option.some.inj hc
    dsimp only at hc'
    by_cases hpos : (0 : Int) ≤ t1
    · rw [if_pos hpos] at hc'
      obtain ⟨htr, hgc⟩ := List.getElem?_zip_eq_some.mp hzip
      dsimp only at htr hgc
      obtain ⟨b, hb, hgb⟩ := mapME_ok_nth hg htr
      have hbg1 : b = g1 := by
        rw [hgc] at hgb
        exact (Option.some.inj hgb).symm
      rw [hbg1] at hb
      have hinds := pyGet_ok_of_nonneg hpos hb
      rw [intf2trans, List.getElem?_map] at hinds
      cases hty : (trans.map (fun t => (t.a, t.r)))[t1.toNat]? with
      | none => rw [hty] at hinds; exact absurd hinds (by simp)
      | some p =>
        rw [hty, Option.map_some'] at hinds
        have hmatch := Option.some.inj hinds
        cases hq0 : treeQueryOne (broadcastYX (y0 :: y1 :: ys) (x0 :: x1 :: xs))
            p (((x1 - x0)/2)^2 + ((y1 - y0)/2)^2) (1/100) with
        | none =>
          rw [hq0] at hmatch
          have hm2 : (-1 : Int) = g1 := hmatch
          exfalso
          omega
        | some j0 =>
          rw [hq0] at hmatch
          have hm2 : ((j0 : ℕ) : Int) = g1 := hmatch
          obtain ⟨center, hcj, htol, -⟩ := treeQueryOne_eq_some hq0
          have hrj : r.toNat = j0 := by omega
          obtain ⟨-, hcne, hLeq⟩ := calc_intf_ll2ra_matrix_ok hL
          obtain ⟨j, q, hjq, hlabel, hmin⟩ := nearestLabel_spec hcne center
          obtain ⟨qp, hqp, hqpeq⟩ := hcov p (List.getElem?_mem hty)
          refine ⟨center, j, q, ?_, hjq, ?_, ?_⟩
          · rw [hrj]; exact hcj
          · rw [hLeq, List.getElem?_map, hrj, hcj, Option.map_some', hlabel]
          · have hle := hmin qp hqp
            rw [hqpeq] at hle
            rw [distSq_comm] at htol
            have hbound := leSqrtTol_mono hle htol
            rwa [distSq_comm] at hbound
    · rw [if_neg hpos] at hc'
      exfalso
      omega

/-- Witness for the amended C1 on the coincident 4x4 scenario: geographic
cell 5 maps forward to radar cell 5, and the inverse lookup there selects the
translation point coincident with radar cell 5's centre, at squared radar
distance 0 — within the bound. -/
theorem roundtrip_radar_bound_witness :
    ∃ (center : ℚ × ℚ) (j : ℕ) (q : ℚ × ℚ × ℕ),
      (broadcastYX [0, 1, 2, 3] [0, 1, 2, 3])[(5 : Int).toNat]? =
        some center ∧
      (candsOf wExtents wBlockData
        (broadcastYX [0, 1, 2, 3] [0, 1, 2, 3]))[j]? = some q ∧
      ([0, 1, 2, 3, 4, 5, 6, 7, 8, 9, 10, 11, 12, 13, 14, 15] :
        List ℕ)[(5 : Int).toNat]? = some q.2.2 ∧
      leSqrtTol (distSq (q.1, q.2.1) center)
        (((1 - 0)/2)^2 + ((1 - 0)/2)^2) (1/100) = true :=
  roundtrip_radar_bound 0 1 0 1 [2, 3] [2, 3] coincidentTrans fullAreaMask
    [0, 1, 2, 3, 4, 5, 6, 7, 8, 9, 10, 11, 12, 13, 14, 15]
    [0, 1, 2, 3, 4, 5, 6, 7, 8, 9, 10, 11, 12, 13, 14, 15]
    wExtents wBlockData rfl rfl (by decide) 5 5 rfl (by decide)

end GmtSAR
